import Mathlib

/-!
Verification of the Star Wars character scraping / Elasticsearch ingestion
pipeline (`src/main.rs`) against its natural-language specification.

The Rust program is shallowly embedded:
* `Character` mirrors the `Character` struct.
* HTML is modelled from the point where the source's CSS selectors have been
  applied: a table row is the list of its `td` cells, and a cell is the list
  of its nested text nodes (`cell.text()` in the source).  Parsing of raw
  HTML itself is done by the external `scraper` crate and is outside the
  embedding.
* `serde_json` values are modelled by the inductive `Json`, restricted to the
  constructors the program's data actually uses (strings, arrays, objects).
  `serde_json`'s default object representation is a `BTreeMap`, i.e. keys are
  kept sorted by the byte-wise (equivalently, scalar-value-wise) order on
  strings; objects are therefore built with sorted insertion (`insertSorted`).
* File and network effects are made explicit: fetch results and HTTP
  responses are inputs, the local files are a `FileSystem` record, and the
  per-iteration UUIDs of `generate_bulk_input` are an input list of strings.
-/

/-- The record extracted for each character (struct `Character` in the source). -/
structure Character where
  name : String
  portrayal : String
  description : String
deriving DecidableEq, Repr

/-- Text content of one table cell:
`cell.text().collect::<Vec<_>>().join("")` in `generate_dataset`. -/
def cellJoin (cell : List String) : String := String.join cell

/-- The extracted text of one cell: the concatenation of its text nodes with
the final character removed (`t.pop()` in `generate_dataset`; Rust's
`String::pop` unconditionally removes the last character and is a no-op on the
empty string, exactly like `List.dropLast`). -/
def extractCell (cell : List String) : String := ⟨(cellJoin cell).data.dropLast⟩

/-- Modelled from the spec: "extract the text content of every table cell,
concatenating any nested text nodes and stripping exactly one trailing
newline-equivalent artifact left by cell-text concatenation" — i.e. remove
one trailing newline when the concatenation ends with one. -/
def specCellText (cell : List String) : String :=
  let t := cellJoin cell
  if t.data.getLast? = some '\n' then ⟨t.data.dropLast⟩ else t

/-- Per-row extraction in `generate_dataset`: a row yields `Ok` with the three
cell texts mapped positionally when it has exactly three cells, `Err` otherwise. -/
def rowToResult (row : List (List String)) : Except String Character :=
  let dat := row.map extractCell
  if h : dat.length = 3 then
    Except.ok
      { name := dat.get ⟨0, by omega⟩
        portrayal := dat.get ⟨1, by omega⟩
        description := dat.get ⟨2, by omega⟩ }
  else
    Except.error "oh no!"

/-- The row pipeline of `generate_dataset`: map each selected row through
`rowToResult` and keep the successes (`.filter_map(|rc| rc.ok())`). -/
def generate_dataset_records (rows : List (List (List String))) : List Character :=
  rows.filterMap (fun row => (rowToResult row).toOption)

theorem rowToResult_isSome (row : List (List String)) :
    ((rowToResult row).toOption).isSome ↔ row.length = 3 := by
  unfold rowToResult
  by_cases h : (row.map extractCell).length = 3
  · rw [List.length_map] at h
    simp [h, Except.toOption]
  · rw [List.length_map] at h
    simp [h, Except.toOption]

/-- C1: a row contributes a `Character` to the extracted sequence iff it yields
exactly three extracted cell texts, and rows with any other cell count are
dropped (no error is raised: extraction is total), so the output length equals
the number of three-cell rows. -/
theorem generate_dataset_three_cell_filter :
    (∀ row : List (List String),
        ((rowToResult row).toOption).isSome ↔ (row.map extractCell).length = 3)
    ∧ ∀ rows : List (List (List String)),
        (generate_dataset_records rows).length
          = rows.countP (fun row => row.length == 3) := by
  constructor
  · intro row
    rw [List.length_map]
    exact rowToResult_isSome row
  · intro rows
    induction rows with
    | nil => rfl
    | cons row rows ih =>
      simp only [generate_dataset_records, List.filterMap_cons, List.countP_cons]
      by_cases h : row.length = 3
      · have hs : ((rowToResult row).toOption).isSome := (rowToResult_isSome row).mpr h
        obtain ⟨c, hc⟩ := Option.isSome_iff_exists.mp hs
        rw [hc]
        simp [generate_dataset_records, h] at ih ⊢
        omega
      · have hs : ¬ ((rowToResult row).toOption).isSome := by
          rw [rowToResult_isSome row]; exact h
        rw [Option.not_isSome_iff_eq_none] at hs
        rw [hs]
        simp [generate_dataset_records] at ih ⊢
        simpa [h] using ih

/-- C2 (counterexample): the code removes the last character of the
concatenated cell text unconditionally (`t.pop()`), so for a cell whose text
does not end with a newline the extracted text is not "the concatenation with
exactly one trailing newline-equivalent artifact stripped": on the cell with
the single text node `"X"` the code yields `""` while the spec's description
yields `"X"`. -/
theorem extractCell_pop_counterexample :
    extractCell ["X"] = "" ∧ specCellText ["X"] = "X"
    ∧ extractCell ["X"] ≠ specCellText ["X"] := by
  refine ⟨rfl, by decide, by decide⟩

/-- C2 (amended): for every cell whose concatenated text ends with a newline —
the artifact cell-text concatenation leaves on wiki-style rows — the extracted
cell text is that concatenation with exactly one trailing newline stripped (in
general the code removes the final character, whatever it is); on the one-row
fragment whose cell texts are `"Luke Skywalker\n"`, `"Mark Hamill\n"`,
`"A farm boy turned Jedi.\n"` extraction yields exactly the one expected
record. -/
theorem extractCell_strips_trailing_newline :
    (∀ cell : List String,
        (cellJoin cell).data.getLast? = some '\n' →
          extractCell cell = specCellText cell)
    ∧ generate_dataset_records
        [[["Luke Skywalker\n"], ["Mark Hamill\n"], ["A farm boy turned Jedi.\n"]]]
      = [{ name := "Luke Skywalker", portrayal := "Mark Hamill",
           description := "A farm boy turned Jedi." }] := by
  constructor
  · intro cell h
    unfold extractCell specCellText
    rw [if_pos h]
  · decide

/-- Witness for C2's amended theorem at a concrete cell. -/
theorem extractCell_strips_trailing_newline_witness :
    extractCell ["ab\n"] = specCellText ["ab\n"] :=
  extractCell_strips_trailing_newline.1 ["ab\n"] (by decide)

/-! ## The `serde_json` value model

`serde_json::Value` restricted to the constructors the program's data uses:
strings, arrays and objects.  With `serde_json`'s default features an object
is a `BTreeMap<String, Value>`, whose keys are ordered by Rust's byte-wise
order on strings; since UTF-8 preserves the order of unicode scalar values,
that order coincides with the lexicographic order on the character lists
(`charListLt`). -/

inductive Json where
  | str : String → Json
  | arr : List Json → Json
  | obj : List (String × Json) → Json
deriving Repr

/-- Byte-wise (equivalently scalar-wise) lexicographic order on strings,
Rust's `Ord` for `String` and hence the `BTreeMap` key order. -/
def charListLt : List Char → List Char → Bool
  | _, [] => false
  | [], _ :: _ => true
  | a :: as, b :: bs =>
    if a.toNat < b.toNat then true
    else if b.toNat < a.toNat then false
    else charListLt as bs

/-- `BTreeMap::insert`: insert a key/value pair keeping keys sorted; an
existing binding for the same key is overwritten. -/
def insertSorted (k : String) (v : Json) : List (String × Json) → List (String × Json)
  | [] => [(k, v)]
  | (k2, v2) :: t =>
    if charListLt k.data k2.data then (k, v) :: (k2, v2) :: t
    else if k = k2 then (k, v) :: t
    else (k2, v2) :: insertSorted k v t

/-- Build an object as `serde_json`'s `json!` macro does: successive
`BTreeMap` inserts in source order. -/
def mkObj (l : List (String × Json)) : Json :=
  Json.obj (l.foldl (fun acc p => insertSorted p.1 p.2 acc) [])

/-- Hex digit characters as `serde_json` writes them (lowercase). -/
def hexDigitChar (n : Nat) : Char :=
  if n < 10 then Char.ofNat (48 + n) else Char.ofNat (87 + n)

/-- `serde_json`'s string escaping, character by character: `"` and `\` get a
backslash, the five short control escapes are used where they exist, any other
control character below `0x20` becomes `\u00XX`, and everything else is
emitted verbatim. -/
def escapeChar (c : Char) : List Char :=
  if c = '"' then ['\\', '"']
  else if c = '\\' then ['\\', '\\']
  else if c = '\x08' then ['\\', 'b']
  else if c = '\t' then ['\\', 't']
  else if c = '\n' then ['\\', 'n']
  else if c = '\x0c' then ['\\', 'f']
  else if c = '\r' then ['\\', 'r']
  else if c.toNat < 32 then
    ['\\', 'u', '0', '0', hexDigitChar (c.toNat / 16), hexDigitChar (c.toNat % 16)]
  else [c]

def escapeList (l : List Char) : List Char := l.flatMap escapeChar

/-- A JSON string literal: quote, escaped content, quote. -/
def quoteChars (l : List Char) : List Char := '"' :: (escapeList l ++ ['"'])

def quoteString (s : String) : String := ⟨quoteChars s.data⟩

/-! Compact serialization of a value (`serde_json::to_writer` /
`Value::to_string`): no whitespace, object keys in map order. -/
mutual
def toJsonCompact : Json → String
  | .str s => quoteString s
  | .arr vs => "[" ++ joinCommaValues vs ++ "]"
  | .obj fs => "\x7b" ++ joinCommaFields fs ++ "\x7d"
def joinCommaValues : List Json → String
  | [] => ""
  | [v] => toJsonCompact v
  | v :: v2 :: vs => toJsonCompact v ++ "," ++ joinCommaValues (v2 :: vs)
def joinCommaFields : List (String × Json) → String
  | [] => ""
  | [(k, v)] => quoteString k ++ ":" ++ toJsonCompact v
  | (k, v) :: f2 :: fs =>
    quoteString k ++ ":" ++ toJsonCompact v ++ "," ++ joinCommaFields (f2 :: fs)
end

/-! ## Parsing (`serde_json::from_str` for the value subset above)

A recursive-descent parser over the character list.  The nesting loops carry
a fuel argument (decremented on every inner call) so that all functions are
plainly structurally recursive; the top level supplies `2 * length + 4` fuel,
ample for every input the program produces or consumes in the claims. -/

/-- Skip JSON whitespace (space, tab, line feed, carriage return). -/
def skipWs : List Char → List Char
  | [] => []
  | c :: rest =>
    if c = ' ' ∨ c = '\t' ∨ c = '\n' ∨ c = '\r' then skipWs rest else c :: rest

/-- Decode one hex digit. -/
def decodeHexDigit (c : Char) : Option Nat :=
  if 48 ≤ c.toNat ∧ c.toNat ≤ 57 then some (c.toNat - 48)
  else if 97 ≤ c.toNat ∧ c.toNat ≤ 102 then some (c.toNat - 87)
  else if 65 ≤ c.toNat ∧ c.toNat ≤ 70 then some (c.toNat - 55)
  else none

/-- The decoded character of a short (two-character) escape sequence. -/
def escapeCode (e : Char) : Option Char :=
  if e = '"' then some '"'
  else if e = '\\' then some '\\'
  else if e = '/' then some '/'
  else if e = 'b' then some '\x08'
  else if e = 'f' then some '\x0c'
  else if e = 'n' then some '\n'
  else if e = 'r' then some '\r'
  else if e = 't' then some '\t'
  else none

/-- Parse the body of a string literal, after the opening quote: decode
escapes, reject unescaped control characters, stop at the closing quote and
return the decoded characters together with the unconsumed input.  (`\uXXXX`
escapes are decoded for scalar values; surrogate pairs, which the program's
data never produces, are rejected.) -/
def parseStringBody : List Char → Option (List Char × List Char)
  | [] => none
  | c :: rest =>
    if c = '"' then some ([], rest)
    else if c = '\\' then
      match rest with
      | [] => none
      | e :: rs =>
        if e = 'u' then
          match rs with
          | h1 :: h2 :: h3 :: h4 :: r =>
            match decodeHexDigit h1, decodeHexDigit h2, decodeHexDigit h3, decodeHexDigit h4 with
            | some d1, some d2, some d3, some d4 =>
              let n := ((d1 * 16 + d2) * 16 + d3) * 16 + d4
              if n < 55296 ∨ (57344 ≤ n ∧ n < 1114112) then
                (parseStringBody r).map (fun p => (Char.ofNat n :: p.1, p.2))
              else none
            | _, _, _, _ => none
          | _ => none
        else
          match escapeCode e with
          | some d => (parseStringBody rs).map (fun p => (d :: p.1, p.2))
          | none => none
    else if c.toNat < 32 then none
    else (parseStringBody rest).map (fun p => (c :: p.1, p.2))

mutual
def parseValue : Nat → List Char → Option (Json × List Char)
  | 0, _ => none
  | fuel + 1, l =>
    match skipWs l with
    | [] => none
    | c :: rest =>
      if c = '"' then (parseStringBody rest).map (fun p => (Json.str ⟨p.1⟩, p.2))
      else if c = '[' then parseArrayRest fuel rest
      else if c = '\x7b' then parseObjRest fuel rest
      else none

def parseArrayRest : Nat → List Char → Option (Json × List Char)
  | 0, _ => none
  | fuel + 1, l =>
    match skipWs l with
    | [] => none
    | c :: rest =>
      if c = ']' then some (Json.arr [], rest)
      else
        match parseValue fuel (c :: rest) with
        | none => none
        | some (v, rest2) => parseArrayTail fuel [v] rest2

def parseArrayTail : Nat → List Json → List Char → Option (Json × List Char)
  | 0, _, _ => none
  | fuel + 1, acc, l =>
    match skipWs l with
    | [] => none
    | c :: rest =>
      if c = ']' then some (Json.arr acc, rest)
      else if c = ',' then
        match parseValue fuel rest with
        | none => none
        | some (v, rest2) => parseArrayTail fuel (acc ++ [v]) rest2
      else none

def parseObjRest : Nat → List Char → Option (Json × List Char)
  | 0, _ => none
  | fuel + 1, l =>
    match skipWs l with
    | [] => none
    | c :: rest =>
      if c = '\x7d' then some (Json.obj [], rest)
      else if c = '"' then
        match parseStringBody rest with
        | none => none
        | some (k, rest2) =>
          match skipWs rest2 with
          | [] => none
          | c2 :: rest3 =>
            if c2 = ':' then
              match parseValue fuel rest3 with
              | none => none
              | some (v, rest4) => parseObjTail fuel (insertSorted ⟨k⟩ v []) rest4
            else none
      else none

def parseObjTail : Nat → List (String × Json) → List Char → Option (Json × List Char)
  | 0, _, _ => none
  | fuel + 1, acc, l =>
    match skipWs l with
    | [] => none
    | c :: rest =>
      if c = '\x7d' then some (Json.obj acc, rest)
      else if c = ',' then
        match skipWs rest with
        | [] => none
        | c1 :: rest1 =>
          if c1 = '"' then
            match parseStringBody rest1 with
            | none => none
            | some (k, rest2) =>
              match skipWs rest2 with
              | [] => none
              | c2 :: rest3 =>
                if c2 = ':' then
                  match parseValue fuel rest3 with
                  | none => none
                  | some (v, rest4) => parseObjTail fuel (insertSorted ⟨k⟩ v acc) rest4
                else none
          else none
      else none
end

/-- Parse a complete JSON document: one value, with only whitespace allowed
after it (`serde_json::from_str` rejects trailing input). -/
def parseJsonList (l : List Char) : Option Json :=
  match parseValue (2 * l.length + 4) l with
  | some (v, rest) => if skipWs rest = [] then some v else none
  | none => none

def parseJsonString (s : String) : Option Json := parseJsonList s.data

/-! ## Round trip between escaping and string-body parsing -/

theorem psb_close (rest : List Char) : parseStringBody ('"' :: rest) = some ([], rest) := by
  rw [parseStringBody.eq_def]
  simp

theorem psb_escape (e d : Char) (rs : List Char) (hu : e ≠ 'u') (hd : escapeCode e = some d) :
    parseStringBody ('\\' :: e :: rs) = (parseStringBody rs).map (fun p => (d :: p.1, p.2)) := by
  rw [parseStringBody.eq_def]
  simp [hu, hd]

theorem psb_escape_u (h1 h2 h3 h4 : Char) (r : List Char) (d1 d2 d3 d4 : Nat)
    (e1 : decodeHexDigit h1 = some d1) (e2 : decodeHexDigit h2 = some d2)
    (e3 : decodeHexDigit h3 = some d3) (e4 : decodeHexDigit h4 = some d4)
    (hval : ((d1 * 16 + d2) * 16 + d3) * 16 + d4 < 55296) :
    parseStringBody ('\\' :: 'u' :: h1 :: h2 :: h3 :: h4 :: r)
      = (parseStringBody r).map
          (fun p => (Char.ofNat (((d1 * 16 + d2) * 16 + d3) * 16 + d4) :: p.1, p.2)) := by
  rw [parseStringBody.eq_def]
  simp [e1, e2, e3, e4, hval]

theorem psb_other (c : Char) (rest : List Char) (h1 : c ≠ '"') (h2 : c ≠ '\\')
    (h3 : ¬ c.toNat < 32) :
    parseStringBody (c :: rest) = (parseStringBody rest).map (fun p => (c :: p.1, p.2)) := by
  rw [parseStringBody.eq_def]
  simp [h1, h2, h3]

theorem decodeHex_hexDigitChar : ∀ n, n < 16 → decodeHexDigit (hexDigitChar n) = some n := by
  decide

/-- Escaping a character list and parsing it back as a string body is the
identity (with the rest of the input passed through unchanged). -/
theorem parseStringBody_escapeList (l rest : List Char) :
    parseStringBody (escapeList l ++ '"' :: rest) = some (l, rest) := by
  induction l with
  | nil =>
    show parseStringBody ([].flatMap escapeChar ++ '"' :: rest) = _
    rw [List.flatMap_nil, List.nil_append, psb_close]
  | cons c cl ih =>
    have hexp : escapeList (c :: cl) = escapeChar c ++ escapeList cl := by
      simp [escapeList]
    rw [hexp, List.append_assoc]
    by_cases h1 : c = '"'
    · subst h1
      rw [show escapeChar '"' = ['\\', '"'] from rfl]
      rw [List.cons_append, List.cons_append, List.nil_append,
        psb_escape '"' '"' _ (by decide) (by decide), ih]
      rfl
    · by_cases h2 : c = '\\'
      · subst h2
        rw [show escapeChar '\\' = ['\\', '\\'] from rfl]
        rw [List.cons_append, List.cons_append, List.nil_append,
          psb_escape '\\' '\\' _ (by decide) (by decide), ih]
        rfl
      · by_cases h3 : c = '\x08'
        · subst h3
          rw [show escapeChar '\x08' = ['\\', 'b'] from rfl]
          rw [List.cons_append, List.cons_append, List.nil_append,
            psb_escape 'b' '\x08' _ (by decide) (by decide), ih]
          rfl
        · by_cases h4 : c = '\t'
          · subst h4
            rw [show escapeChar '\t' = ['\\', 't'] from rfl]
            rw [List.cons_append, List.cons_append, List.nil_append,
              psb_escape 't' '\t' _ (by decide) (by decide), ih]
            rfl
          · by_cases h5 : c = '\n'
            · subst h5
              rw [show escapeChar '\n' = ['\\', 'n'] from rfl]
              rw [List.cons_append, List.cons_append, List.nil_append,
                psb_escape 'n' '\n' _ (by decide) (by decide), ih]
              rfl
            · by_cases h6 : c = '\x0c'
              · subst h6
                rw [show escapeChar '\x0c' = ['\\', 'f'] from rfl]
                rw [List.cons_append, List.cons_append, List.nil_append,
                  psb_escape 'f' '\x0c' _ (by decide) (by decide), ih]
                rfl
              · by_cases h7 : c = '\r'
                · subst h7
                  rw [show escapeChar '\r' = ['\\', 'r'] from rfl]
                  rw [List.cons_append, List.cons_append, List.nil_append,
                    psb_escape 'r' '\r' _ (by decide) (by decide), ih]
                  rfl
                · by_cases h8 : c.toNat < 32
                  · have hesc : escapeChar c =
                        ['\\', 'u', '0', '0', hexDigitChar (c.toNat / 16),
                          hexDigitChar (c.toNat % 16)] := by
                      rw [escapeChar.eq_def]
                      rw [if_neg h1, if_neg h2, if_neg h3, if_neg h4, if_neg h5,
                        if_neg h6, if_neg h7, if_pos h8]
                    rw [hesc]
                    simp only [List.cons_append, List.nil_append]
                    rw [psb_escape_u '0' '0' _ _ _ 0 0 (c.toNat / 16) (c.toNat % 16)
                      (by decide) (by decide)
                      (decodeHex_hexDigitChar _ (by omega))
                      (decodeHex_hexDigitChar _ (by omega))
                      (by omega), ih]
                    have hc : ((0 * 16 + 0) * 16 + c.toNat / 16) * 16 + c.toNat % 16
                        = c.toNat := by omega
                    rw [hc, Char.ofNat_toNat]
                    rfl
                  · have hesc : escapeChar c = [c] := by
                      rw [escapeChar.eq_def]
                      rw [if_neg h1, if_neg h2, if_neg h3, if_neg h4, if_neg h5,
                        if_neg h6, if_neg h7, if_neg h8]
                    rw [hesc]
                    simp only [List.cons_append, List.nil_append]
                    rw [psb_other c _ h1 h2 h8, ih]
                    rfl

/-! ## `skipWs` step lemmas for the concrete characters of the artifact -/

theorem skipWs_space (l : List Char) : skipWs (' ' :: l) = skipWs l := by
  rw [skipWs.eq_def]; simp

theorem skipWs_lf (l : List Char) : skipWs ('\n' :: l) = skipWs l := by
  rw [skipWs.eq_def]; simp

theorem skipWs_quote (l : List Char) : skipWs ('"' :: l) = '"' :: l := by
  rw [skipWs.eq_def]; simp

theorem skipWs_comma (l : List Char) : skipWs (',' :: l) = ',' :: l := by
  rw [skipWs.eq_def]; simp

theorem skipWs_colon (l : List Char) : skipWs (':' :: l) = ':' :: l := by
  rw [skipWs.eq_def]; simp

theorem skipWs_lbrace (l : List Char) : skipWs ('\x7b' :: l) = '\x7b' :: l := by
  rw [skipWs.eq_def]; simp

theorem skipWs_rbrace (l : List Char) : skipWs ('\x7d' :: l) = '\x7d' :: l := by
  rw [skipWs.eq_def]; simp

theorem skipWs_lbracket (l : List Char) : skipWs ('[' :: l) = '[' :: l := by
  rw [skipWs.eq_def]; simp

theorem skipWs_rbracket (l : List Char) : skipWs (']' :: l) = ']' :: l := by
  rw [skipWs.eq_def]; simp

/-! ## The corpus artifact `dataset.json`

`generate_dataset` writes the record vector with
`serde_json::to_writer_pretty` (two-space indentation).  A struct serializes
its fields in declaration order, so one record prints as

```
  {
    "name": <quoted>,
    "portrayal": <quoted>,
    "description": <quoted>
  }
```

and the file is `[]` for an empty corpus, otherwise `[` and a newline, the
records interleaved with `,\n`, a final newline and `]`. -/

/-- The characters of the three field names. -/
def nameKey : List Char := ['n', 'a', 'm', 'e']

def portrayalKey : List Char := ['p', 'o', 'r', 't', 'r', 'a', 'y', 'a', 'l']

def descriptionKey : List Char := ['d', 'e', 's', 'c', 'r', 'i', 'p', 't', 'i', 'o', 'n']

theorem nameKey_eq : nameKey = "name".data := by decide

theorem portrayalKey_eq : portrayalKey = "portrayal".data := by decide

theorem descriptionKey_eq : descriptionKey = "description".data := by decide

/-- One pretty-printed field at object depth two: newline, four-space indent,
quoted key, colon, space, quoted value. -/
def fieldChars (k : List Char) (v : String) : List Char :=
  '\n' :: ' ' :: ' ' :: ' ' :: ' ' :: '"' :: (k ++ '"' :: ':' :: ' ' :: quoteChars v.data)

/-- One record as pretty-printed by `serde_json` at array depth one. -/
def characterPrettyChars (c : Character) : List Char :=
  ' ' :: ' ' :: '\x7b' ::
    (fieldChars nameKey c.name
      ++ ',' :: (fieldChars portrayalKey c.portrayal
      ++ ',' :: (fieldChars descriptionKey c.description
      ++ '\n' :: ' ' :: ' ' :: '\x7d' :: [])))

def generate_dataset_fileChars : List Character → List Char
  | [] => ['[', ']']
  | c :: cs =>
    '[' :: '\n' ::
      (characterPrettyChars c
        ++ cs.flatMap (fun c2 => ',' :: '\n' :: characterPrettyChars c2)
        ++ '\n' :: ']' :: [])

/-- The content of `dataset.json` for a given record sequence
(`serde_json::to_writer_pretty(&mut file, &characters)`). -/
def generate_dataset_file (cs : List Character) : String :=
  ⟨generate_dataset_fileChars cs⟩

/-- The `serde_json::Value` to which one serialized record parses back: an
object (`BTreeMap`, keys in sorted byte order) with the record's three
fields. -/
def characterToValue (c : Character) : Json :=
  Json.obj [("description", Json.str c.description), ("name", Json.str c.name),
    ("portrayal", Json.str c.portrayal)]

/-- Field-for-field reading of one parsed record value. -/
def jsonToCharacter (j : Json) : Option Character :=
  match j with
  | Json.obj fs =>
    match fs.lookup "name", fs.lookup "portrayal", fs.lookup "description" with
    | some (Json.str n), some (Json.str p), some (Json.str d) =>
      some { name := n, portrayal := p, description := d }
    | _, _, _ => none
  | _ => none

/-- Reading the corpus artifact back: `serde_json::from_str::<Value>`, the
`as_array` view taken by `generate_bulk_input`, and the field-for-field view
of each element. -/
def corpusRead (s : String) : Option (List Character) :=
  match parseJsonString s with
  | some (Json.arr vs) => vs.mapM jsonToCharacter
  | _ => none

/-! ## Parsing the corpus artifact back -/

theorem string_mk_data (s : String) : (⟨s.data⟩ : String) = s := rfl

theorem parseValue_str (fuel : Nat) (l s rest : List Char)
    (h : skipWs l = '"' :: (escapeList s ++ '"' :: rest)) :
    parseValue (fuel + 1) l = some (Json.str ⟨s⟩, rest) := by
  rw [parseValue.eq_def]
  simp [h, parseStringBody_escapeList]

/-- A key whose characters survive escaping unchanged parses back as itself. -/
theorem psb_plain (k : List Char) (hplain : escapeList k = k) (z : List Char) :
    parseStringBody (k ++ '"' :: z) = some (k, z) := by
  conv_lhs => rw [← hplain]
  exact parseStringBody_escapeList k z

theorem insertSorted_name (x : Json) :
    insertSorted "name" x [] = [("name", x)] := by
  simp [insertSorted]

theorem insertSorted_portrayal (x y : Json) :
    insertSorted "portrayal" y [("name", x)] = [("name", x), ("portrayal", y)] := by
  have h1 : charListLt "portrayal".data "name".data = false := by decide
  have h2 : ¬ ("portrayal" : String) = "name" := by decide
  simp [insertSorted, h1, h2]

theorem insertSorted_description (x y z : Json) :
    insertSorted "description" z [("name", x), ("portrayal", y)]
      = [("description", z), ("name", x), ("portrayal", y)] := by
  have h1 : charListLt "description".data "name".data = true := by decide
  simp [insertSorted, h1]

theorem mk_nameKey : (⟨nameKey⟩ : String) = "name" := by decide

theorem mk_portrayalKey : (⟨portrayalKey⟩ : String) = "portrayal" := by decide

theorem mk_descriptionKey : (⟨descriptionKey⟩ : String) = "description" := by decide

/-! ### One-step lemmas for the mutual parser -/

theorem parseValue_obj (fuel : Nat) (l rest : List Char) (h : skipWs l = '\x7b' :: rest) :
    parseValue (fuel + 1) l = parseObjRest fuel rest := by
  rw [parseValue.eq_def]
  simp [h]

theorem parseValue_arr (fuel : Nat) (l rest : List Char) (h : skipWs l = '[' :: rest) :
    parseValue (fuel + 1) l = parseArrayRest fuel rest := by
  rw [parseValue.eq_def]
  simp [h]

theorem parseObjRest_field (fuel : Nat) (l rest2 rest3 rest4 : List Char) (k : List Char)
    (v : Json) (rest5 : List Char)
    (h1 : skipWs l = '"' :: rest2)
    (h2 : parseStringBody rest2 = some (k, rest3))
    (h3 : skipWs rest3 = ':' :: rest4)
    (h4 : parseValue fuel rest4 = some (v, rest5)) :
    parseObjRest (fuel + 1) l = parseObjTail fuel (insertSorted ⟨k⟩ v []) rest5 := by
  rw [parseObjRest.eq_def]
  simp [h1, h2, h3, h4]

theorem parseObjTail_done (fuel : Nat) (acc : List (String × Json)) (l rest : List Char)
    (h : skipWs l = '\x7d' :: rest) :
    parseObjTail (fuel + 1) acc l = some (Json.obj acc, rest) := by
  rw [parseObjTail.eq_def]
  simp [h]

theorem parseObjTail_field (fuel : Nat) (acc : List (String × Json))
    (l rest1 rest2 rest3 rest4 : List Char) (k : List Char) (v : Json) (rest5 : List Char)
    (h0 : skipWs l = ',' :: rest1)
    (h1 : skipWs rest1 = '"' :: rest2)
    (h2 : parseStringBody rest2 = some (k, rest3))
    (h3 : skipWs rest3 = ':' :: rest4)
    (h4 : parseValue fuel rest4 = some (v, rest5)) :
    parseObjTail (fuel + 1) acc l = parseObjTail fuel (insertSorted ⟨k⟩ v acc) rest5 := by
  rw [parseObjTail.eq_def]
  simp [h0, h1, h2, h3, h4]

theorem parseArrayRest_empty (fuel : Nat) (l rest : List Char) (h : skipWs l = ']' :: rest) :
    parseArrayRest (fuel + 1) l = some (Json.arr [], rest) := by
  rw [parseArrayRest.eq_def]
  simp [h]

theorem parseArrayRest_first (fuel : Nat) (l rest : List Char) (c : Char) (v : Json)
    (rest2 : List Char)
    (h : skipWs l = c :: rest) (hc : ¬ c = ']')
    (hv : parseValue fuel (c :: rest) = some (v, rest2)) :
    parseArrayRest (fuel + 1) l = parseArrayTail fuel [v] rest2 := by
  rw [parseArrayRest.eq_def]
  simp [h, hc, hv]

theorem parseArrayTail_done (fuel : Nat) (acc : List Json) (l rest : List Char)
    (h : skipWs l = ']' :: rest) :
    parseArrayTail (fuel + 1) acc l = some (Json.arr acc, rest) := by
  rw [parseArrayTail.eq_def]
  simp [h]

theorem parseArrayTail_comma (fuel : Nat) (acc : List Json) (l rest : List Char) (v : Json)
    (rest2 : List Char)
    (h : skipWs l = ',' :: rest)
    (hv : parseValue fuel rest = some (v, rest2)) :
    parseArrayTail (fuel + 1) acc l = parseArrayTail fuel (acc ++ [v]) rest2 := by
  rw [parseArrayTail.eq_def]
  simp [h, hv]

/-- Skipping whitespace over one pretty-printed field stops at the key's
opening quote. -/
theorem skipWs_fieldChars (k : List Char) (v : String) (x : List Char) :
    skipWs (fieldChars k v ++ x)
      = '"' :: (k ++ '"' :: ':' :: ' ' :: (quoteChars v.data ++ x)) := by
  simp only [fieldChars, List.cons_append, skipWs_lf, skipWs_space, skipWs_quote,
    List.append_assoc]

/-- A quoted string value preceded by the `": "` separator's space parses as
that string. -/
theorem parseValue_quoted (fuel : Nat) (v : String) (x : List Char) :
    parseValue (fuel + 1) (' ' :: (quoteChars v.data ++ x)) = some (Json.str v, x) := by
  have h := parseValue_str fuel (' ' :: (quoteChars v.data ++ x)) v.data x (by
    simp only [quoteChars, List.cons_append, skipWs_space, skipWs_quote, List.append_assoc,
      List.nil_append])
  rw [h, string_mk_data]

/-- Parsing one pretty-printed record body (after its opening brace) yields
the record's `BTreeMap` value. -/
theorem parseObjRest_record (c : Character) (fuel : Nat) (rest : List Char) :
    parseObjRest (fuel + 1 + 1 + 1 + 1)
        (fieldChars nameKey c.name
          ++ ',' :: (fieldChars portrayalKey c.portrayal
          ++ ',' :: (fieldChars descriptionKey c.description
          ++ '\n' :: ' ' :: ' ' :: '\x7d' :: rest)))
      = some (characterToValue c, rest) := by
  rw [parseObjRest_field (fuel + 1 + 1 + 1) _ _ _ _ nameKey (Json.str c.name) _
    (skipWs_fieldChars nameKey c.name _)
    (psb_plain nameKey (by decide) _)
    (skipWs_colon _)
    (parseValue_quoted (fuel + 1 + 1) c.name _)]
  rw [mk_nameKey, insertSorted_name]
  rw [parseObjTail_field (fuel + 1 + 1) _ _ _ _ _ _ portrayalKey (Json.str c.portrayal) _
    (skipWs_comma _)
    (skipWs_fieldChars portrayalKey c.portrayal _)
    (psb_plain portrayalKey (by decide) _)
    (skipWs_colon _)
    (parseValue_quoted (fuel + 1) c.portrayal _)]
  rw [mk_portrayalKey, insertSorted_portrayal]
  rw [parseObjTail_field (fuel + 1) _ _ _ _ _ _ descriptionKey (Json.str c.description) _
    (skipWs_comma _)
    (skipWs_fieldChars descriptionKey c.description _)
    (psb_plain descriptionKey (by decide) _)
    (skipWs_colon _)
    (parseValue_quoted fuel c.description _)]
  rw [mk_descriptionKey, insertSorted_description]
  rw [parseObjTail_done fuel _ _ _ (by rw [skipWs_lf, skipWs_space, skipWs_space,
    skipWs_rbrace])]
  rfl

theorem skipWs_nil : skipWs [] = [] := rfl

/-- Skipping whitespace over one pretty-printed record stops at its opening
brace, with the object body following. -/
theorem skipWs_charPretty (c : Character) (x : List Char) :
    skipWs (characterPrettyChars c ++ x)
      = '\x7b' :: (fieldChars nameKey c.name
          ++ ',' :: (fieldChars portrayalKey c.portrayal
          ++ ',' :: (fieldChars descriptionKey c.description
          ++ '\n' :: ' ' :: ' ' :: '\x7d' :: x))) := by
  simp only [characterPrettyChars, List.cons_append, skipWs_space, skipWs_lbrace,
    List.append_assoc, List.nil_append]

/-- Parsing one pretty-printed record yields the record's value. -/
theorem parseValue_record (c : Character) (fuel : Nat) (l rest : List Char)
    (h : skipWs l = skipWs (characterPrettyChars c ++ rest)) :
    parseValue (fuel + 1 + 1 + 1 + 1 + 1) l = some (characterToValue c, rest) := by
  rw [parseValue_obj _ _ _ (h.trans (skipWs_charPretty c rest))]
  exact parseObjRest_record c fuel rest

/-- Parsing the comma-separated remainder of the record array. -/
theorem parseArrayTail_records (cs : List Character) (acc : List Json) (fuel : Nat)
    (rest : List Char) (h : cs.length + 6 ≤ fuel) :
    parseArrayTail fuel acc
        (cs.flatMap (fun c => ',' :: '\n' :: characterPrettyChars c) ++ '\n' :: ']' :: rest)
      = some (Json.arr (acc ++ cs.map characterToValue), rest) := by
  induction cs generalizing acc fuel with
  | nil =>
    obtain ⟨f, rfl⟩ : ∃ f, fuel = f + 1 := ⟨fuel - 1, by omega⟩
    simp only [List.flatMap_nil, List.nil_append, List.map_nil, List.append_nil]
    exact parseArrayTail_done f acc _ _ (by rw [skipWs_lf, skipWs_rbracket])
  | cons c cs ih =>
    obtain ⟨g, rfl⟩ : ∃ g, fuel = g + 1 + 1 + 1 + 1 + 1 + 1 := ⟨fuel - 6, by omega⟩
    simp only [List.flatMap_cons, List.cons_append, List.append_assoc]
    have hv : parseValue (g + 1 + 1 + 1 + 1 + 1)
        ('\n' :: (characterPrettyChars c
          ++ (cs.flatMap (fun c2 => ',' :: '\n' :: characterPrettyChars c2)
              ++ '\n' :: ']' :: rest)))
        = some (characterToValue c,
            cs.flatMap (fun c2 => ',' :: '\n' :: characterPrettyChars c2)
              ++ '\n' :: ']' :: rest) :=
      parseValue_record c g _ _ (by rw [skipWs_lf])
    rw [parseArrayTail_comma _ acc _ _ _ _ (skipWs_comma _) hv]
    rw [ih (acc ++ [characterToValue c]) _ (by simp at h ⊢; omega)]
    simp

/-- Parsing the whole corpus artifact yields the array of record values. -/
theorem parseValue_corpus (cs : List Character) (fuel : Nat) (h : cs.length + 8 ≤ fuel) :
    parseValue fuel (generate_dataset_fileChars cs)
      = some (Json.arr (cs.map characterToValue), []) := by
  cases cs with
  | nil =>
    obtain ⟨f, rfl⟩ : ∃ f, fuel = f + 1 + 1 := ⟨fuel - 2, by omega⟩
    rw [show generate_dataset_fileChars [] = '[' :: ']' :: [] from rfl]
    rw [parseValue_arr (f + 1) _ _ (skipWs_lbracket _)]
    rw [parseArrayRest_empty f _ _ (skipWs_rbracket _)]
    rfl
  | cons c cs =>
    obtain ⟨f, rfl⟩ : ∃ f, fuel = f + 1 + 1 := ⟨fuel - 2, by omega⟩
    obtain ⟨g, rfl⟩ : ∃ g, f = g + 1 + 1 + 1 + 1 + 1 := ⟨f - 5, by simp at h; omega⟩
    simp only [generate_dataset_fileChars]
    rw [parseValue_arr _ _ _ (skipWs_lbracket _)]
    have hv : parseValue (g + 1 + 1 + 1 + 1 + 1)
        ('\x7b' :: (fieldChars nameKey c.name
          ++ ',' :: (fieldChars portrayalKey c.portrayal
          ++ ',' :: (fieldChars descriptionKey c.description
          ++ '\n' :: ' ' :: ' ' :: '\x7d' ::
            (cs.flatMap (fun c2 => ',' :: '\n' :: characterPrettyChars c2)
              ++ '\n' :: ']' :: [])))))
        = some (characterToValue c,
            cs.flatMap (fun c2 => ',' :: '\n' :: characterPrettyChars c2)
              ++ '\n' :: ']' :: []) :=
      parseValue_record c g _ _ (by rw [skipWs_lbrace, skipWs_charPretty])
    rw [parseArrayRest_first _ _ _ '\x7b' (characterToValue c) _
      (by rw [skipWs_lf, List.append_assoc, skipWs_charPretty]) (by decide) hv]
    rw [parseArrayTail_records cs [characterToValue c] _ [] (by simp at h; omega)]
    simp

theorem generate_dataset_fileChars_length (cs : List Character) :
    cs.length + 8 ≤ 2 * (generate_dataset_fileChars cs).length + 4 := by
  cases cs with
  | nil => simp [generate_dataset_fileChars]
  | cons c cs =>
    have h1 : 3 ≤ (characterPrettyChars c).length := by
      simp [characterPrettyChars]
    have h2 : 2 * cs.length
        ≤ (cs.flatMap (fun c2 => ',' :: '\n' :: characterPrettyChars c2)).length := by
      induction cs with
      | nil => simp
      | cons d ds ih =>
        simp only [List.flatMap_cons, List.length_append, List.length_cons] at ih ⊢
        omega
    simp only [generate_dataset_fileChars, List.length_cons, List.length_append]
    omega

/-- Parsing the corpus artifact with `serde_json::from_str` yields exactly the
array of record values. -/
theorem parseJsonString_dataset (cs : List Character) :
    parseJsonString (generate_dataset_file cs) = some (Json.arr (cs.map characterToValue)) := by
  unfold parseJsonString generate_dataset_file parseJsonList
  rw [show (⟨generate_dataset_fileChars cs⟩ : String).data = generate_dataset_fileChars cs
    from rfl]
  rw [parseValue_corpus cs _ (by have := generate_dataset_fileChars_length cs; omega)]
  simp [skipWs_nil]

theorem jsonToCharacter_characterToValue (c : Character) :
    jsonToCharacter (characterToValue c) = some c := by
  simp [jsonToCharacter, characterToValue, List.lookup]

/-- Write-then-read is the identity on corpora. -/
theorem mapM_characterToValue (cs : List Character) :
    (cs.map characterToValue).mapM jsonToCharacter = some cs := by
  induction cs with
  | nil => rfl
  | cons c cs ih =>
    rw [List.map_cons, List.mapM_cons, jsonToCharacter_characterToValue, ih]
    rfl

theorem corpusRead_write (cs : List Character) :
    corpusRead (generate_dataset_file cs) = some cs := by
  unfold corpusRead
  rw [parseJsonString_dataset]
  exact mapM_characterToValue cs

/-- C6: writing the corpus artifact (`serde_json::to_writer_pretty` into
`dataset.json`) and reading it back (`serde_json::from_str`, the array view,
and each element's fields) yields a sequence equal field-for-field to the
original, for every non-empty record sequence. -/
theorem corpus_store_roundtrip (cs : List Character) (hne : cs ≠ []) :
    corpusRead (generate_dataset_file cs) = some cs :=
  corpusRead_write cs

/-- Witness for C6 at a concrete one-record corpus. -/
theorem corpus_store_roundtrip_witness :
    corpusRead (generate_dataset_file
        [{ name := "Luke Skywalker", portrayal := "Mark Hamill",
           description := "A farm boy turned Jedi." }])
      = some [{ name := "Luke Skywalker", portrayal := "Mark Hamill",
                description := "A farm boy turned Jedi." }] :=
  corpus_store_roundtrip _ (by decide)

/-! ## HTTP response handling

Each gateway call in the source sends a request and then branches on
`resp.status().is_success()`.  The exchange itself is external; the embedding
takes the backend's response as input and models the handling after `send()`:
the returned `Result` and the message written to the error log (`error!`).
`trace!`-level logging is omitted. -/

/-- A backend HTTP response: numeric status and body text. -/
structure HttpResponse where
  status : Nat
  body : String
deriving Repr

/-- `StatusCode::is_success`: the 2xx class. -/
def statusIsSuccess (s : Nat) : Bool := decide (200 ≤ s) && decide (s < 300)

/-- The tail of `create_index`: on success `Ok(())`; otherwise an `error!` log
carrying status and body, and an `Err` whose message carries only the status. -/
def create_index_outcome (name : String) (resp : HttpResponse) :
    Except String Unit × List String :=
  if statusIsSuccess resp.status then (Except.ok (), [])
  else
    (Except.error ("Index '" ++ name ++ "' failure: status " ++ toString resp.status),
      ["Index '" ++ name ++ "' creation failed with status " ++ toString resp.status
        ++ ": " ++ resp.body])

/-- The tail of `import_bulk_input`: same shape as `create_index_outcome`. -/
def import_bulk_outcome (name : String) (resp : HttpResponse) :
    Except String Unit × List String :=
  if statusIsSuccess resp.status then (Except.ok (), [])
  else
    (Except.error ("Bulk import " ++ name ++ " failure: status " ++ toString resp.status),
      ["Bulk import " ++ name ++ " failed with status " ++ toString resp.status
        ++ ": " ++ resp.body])

/-- The tail of `search_query`: on success the body is parsed as JSON and
returned; otherwise log and error.  (The source's failure format string
interpolates `name` then the status, so the error message reads
`"Dataset search failed: status <name>: <status>"`.) -/
def search_query_outcome (name : String) (resp : HttpResponse) :
    Except String Json × List String :=
  if statusIsSuccess resp.status then
    match parseJsonString resp.body with
    | some v => (Except.ok v, [])
    | none => (Except.error "search response was not valid JSON", [])
  else
    (Except.error ("Dataset search failed: status " ++ name ++ ": " ++ toString resp.status),
      ["Dataset search failed with status " ++ toString resp.status ++ ": " ++ resp.body])

/-- C4 (counterexample): on a simulated status-400 bulk-load response the
returned error message carries the status but not the backend's response
body — the body `"simulated backend body"` does not occur in the message
(it is only written to the error log). -/
theorem backend_error_body_counterexample :
    (import_bulk_outcome "starwars" ⟨400, "simulated backend body"⟩).1
      = Except.error "Bulk import starwars failure: status 400"
    ∧ ¬ ("simulated backend body".data
        <:+: "Bulk import starwars failure: status 400".data) := by
  constructor
  · rfl
  · decide

/-- C4 (amended): any non-success-class response to create-index, bulk-load or
search yields a fatal `Err` (never silently swallowed) whose message carries
the numeric status, together with an error-log line carrying both the numeric
status and the backend's verbatim body; the body is carried by the log line,
not by the returned error message. -/
theorem backend_error_not_swallowed (name : String) (resp : HttpResponse)
    (h : statusIsSuccess resp.status = false) :
    (create_index_outcome name resp
      = (Except.error ("Index '" ++ name ++ "' failure: status " ++ toString resp.status),
         ["Index '" ++ name ++ "' creation failed with status " ++ toString resp.status
           ++ ": " ++ resp.body]))
    ∧ (import_bulk_outcome name resp
      = (Except.error ("Bulk import " ++ name ++ " failure: status " ++ toString resp.status),
         ["Bulk import " ++ name ++ " failed with status " ++ toString resp.status
           ++ ": " ++ resp.body]))
    ∧ (search_query_outcome name resp
      = (Except.error ("Dataset search failed: status " ++ name ++ ": "
            ++ toString resp.status),
         ["Dataset search failed with status " ++ toString resp.status ++ ": " ++ resp.body]))
    ∧ ((toString resp.status).data <:+:
        ("Index '" ++ name ++ "' failure: status " ++ toString resp.status).data)
    ∧ ((toString resp.status).data <:+:
        ("Bulk import " ++ name ++ " failure: status " ++ toString resp.status).data)
    ∧ ((toString resp.status).data <:+:
        ("Dataset search failed: status " ++ name ++ ": " ++ toString resp.status).data)
    ∧ (resp.body.data <:+
        ("Index '" ++ name ++ "' creation failed with status " ++ toString resp.status
          ++ ": " ++ resp.body).data)
    ∧ (resp.body.data <:+
        ("Bulk import " ++ name ++ " failed with status " ++ toString resp.status
          ++ ": " ++ resp.body).data)
    ∧ (resp.body.data <:+
        ("Dataset search failed with status " ++ toString resp.status ++ ": "
          ++ resp.body).data)
    ∧ ((toString resp.status).data <:+:
        ("Index '" ++ name ++ "' creation failed with status " ++ toString resp.status
          ++ ": " ++ resp.body).data)
    ∧ ((toString resp.status).data <:+:
        ("Bulk import " ++ name ++ " failed with status " ++ toString resp.status
          ++ ": " ++ resp.body).data)
    ∧ ((toString resp.status).data <:+:
        ("Dataset search failed with status " ++ toString resp.status ++ ": "
          ++ resp.body).data) := by
  refine ⟨by simp [create_index_outcome, h], by simp [import_bulk_outcome, h],
    by simp [search_query_outcome, h], ?_, ?_, ?_, ?_, ?_, ?_, ?_, ?_, ?_⟩
  · simp only [String.data_append]
    exact (List.suffix_append _ _).isInfix
  · simp only [String.data_append]
    exact (List.suffix_append _ _).isInfix
  · simp only [String.data_append]
    exact (List.suffix_append _ _).isInfix
  · simp only [String.data_append]
    exact List.suffix_append _ _
  · simp only [String.data_append]
    exact List.suffix_append _ _
  · simp only [String.data_append]
    exact List.suffix_append _ _
  · exact ⟨"Index '".data ++ name.data ++ "' creation failed with status ".data,
      ": ".data ++ resp.body.data, by simp [String.data_append]⟩
  · exact ⟨"Bulk import ".data ++ name.data ++ " failed with status ".data,
      ": ".data ++ resp.body.data, by simp [String.data_append]⟩
  · exact ⟨"Dataset search failed with status ".data,
      ": ".data ++ resp.body.data, by simp [String.data_append]⟩

/-- Witness for C4's amended theorem at a concrete 400 response. -/
theorem backend_error_not_swallowed_witness :
    create_index_outcome "starwars" ⟨400, "boom"⟩
      = (Except.error ("Index '" ++ "starwars" ++ "' failure: status "
            ++ toString (400 : Nat)),
         ["Index '" ++ "starwars" ++ "' creation failed with status "
            ++ toString (400 : Nat) ++ ": " ++ "boom"]) :=
  (backend_error_not_swallowed "starwars" ⟨400, "boom"⟩ (by decide)).1

/-! ## The bulk payload `bulk.json` (`generate_bulk_input`)

For each element of the parsed dataset array, the source writes a metadata
line (with a freshly drawn UUID, here supplied as the input list `ids`), then
the element's compact JSON, then a newline. -/

/-- The metadata line (trailing newline included), produced by the source's
`format!` call:
`{ "index": { "_index": "<name>", "_type": "_doc", "_id": "<id>" } }`. -/
def metaLine (name id : String) : String :=
  "\x7b \"index\": \x7b \"_index\": \"" ++ name
    ++ "\", \"_type\": \"_doc\", \"_id\": \"" ++ id ++ "\" \x7d \x7d\n"

/-- Modelled from the spec: the metadata-line form the spec states —
`{ "index": { "_index": <name>, "_id": <fresh-uuid> } }` — which has no
`_type` member. -/
def specMetaLine (name id : String) : String :=
  "\x7b \"index\": \x7b \"_index\": \"" ++ name ++ "\", \"_id\": \"" ++ id
    ++ "\" \x7d \x7d\n"

/-- The two lines written for one record. -/
def bulkLinesFor (name : String) (v : Json) (id : String) : List String :=
  [metaLine name id, toJsonCompact v ++ "\n"]

/-- All lines of `bulk.json`, in dataset order. -/
def bulkLines (name : String) (values : List Json) (ids : List String) : List String :=
  (values.zip ids).flatMap (fun p => bulkLinesFor name p.1 p.2)

/-- The content of `bulk.json`: the source's `for_each` appends, per record,
the metadata line, the compact record JSON, and a newline. -/
def generate_bulk_input_content (name : String) (values : List Json) (ids : List String) :
    String :=
  (values.zip ids).foldl
    (fun acc p => acc ++ metaLine name p.2 ++ toJsonCompact p.1 ++ "\n") ""

/-! ### No character of a compact serialization is a raw newline -/

theorem escapeChar_no_nl (c : Char) : ¬ '\n' ∈ escapeChar c := by
  have hhex : ∀ n, n < 16 → hexDigitChar n ≠ '\n' := by decide
  rw [escapeChar.eq_def]
  split_ifs with h1 h2 h3 h4 h5 h6 h7 h8
  · simp
  · simp
  · simp
  · simp
  · simp
  · simp
  · simp
  · intro hmem
    simp only [List.mem_cons, List.not_mem_nil, or_false] at hmem
    rcases hmem with h | h | h | h | h | h
    · exact absurd h (by decide)
    · exact absurd h (by decide)
    · exact absurd h (by decide)
    · exact absurd h (by decide)
    · exact (hhex _ (by omega) h.symm)
    · exact (hhex _ (by omega) h.symm)
  · intro hmem
    simp only [List.mem_cons, List.not_mem_nil, or_false] at hmem
    have : c.toNat = 10 := by rw [← hmem]; rfl
    omega

theorem escapeList_no_nl (l : List Char) : ¬ '\n' ∈ escapeList l := by
  intro hmem
  rw [escapeList, List.mem_flatMap] at hmem
  obtain ⟨c, -, hc⟩ := hmem
  exact escapeChar_no_nl c hc

theorem quoteString_no_nl (s : String) : ¬ '\n' ∈ (quoteString s).data := by
  intro hmem
  simp only [quoteString, quoteChars, List.mem_cons, List.mem_append,
    List.not_mem_nil, or_false] at hmem
  rcases hmem with h | h | h
  · exact absurd h (by decide)
  · exact escapeList_no_nl s.data h
  · exact absurd h (by decide)

/-- Every value of the `Json` type has positive size. -/
theorem json_sizeOf_pos (j : Json) : 0 < sizeOf j := by
  cases j with
  | str s => simp
  | arr vs => simp
  | obj fs => simp

/-- Joint statement, proved by strong induction on size: no serialization
emitted by the compact serializer contains a raw newline. -/
theorem json_compact_no_nl (n : Nat) :
    (∀ j : Json, sizeOf j ≤ n → ¬ '\n' ∈ (toJsonCompact j).data)
    ∧ (∀ vs : List Json, sizeOf vs ≤ n → ¬ '\n' ∈ (joinCommaValues vs).data)
    ∧ (∀ fs : List (String × Json), sizeOf fs ≤ n → ¬ '\n' ∈ (joinCommaFields fs).data) := by
  induction n using Nat.strong_induction_on with
  | _ n ih =>
    refine ⟨?_, ?_, ?_⟩
    · intro j hj
      cases j with
      | str s => exact quoteString_no_nl s
      | arr vs =>
        intro hmem
        rw [show toJsonCompact (Json.arr vs) = "[" ++ joinCommaValues vs ++ "]" from rfl,
          String.data_append, String.data_append] at hmem
        simp only [List.mem_append] at hmem
        have h0 : sizeOf (Json.arr vs) = 1 + sizeOf vs := by simp
        rcases hmem with (h | h) | h
        · exact absurd h (by decide)
        · exact (ih (n - 1) (by omega)).2.1 vs (by omega) h
        · exact absurd h (by decide)
      | obj fs =>
        intro hmem
        rw [show toJsonCompact (Json.obj fs) = "\x7b" ++ joinCommaFields fs ++ "\x7d" from rfl,
          String.data_append, String.data_append] at hmem
        simp only [List.mem_append] at hmem
        have h0 : sizeOf (Json.obj fs) = 1 + sizeOf fs := by simp
        rcases hmem with (h | h) | h
        · exact absurd h (by decide)
        · exact (ih (n - 1) (by omega)).2.2 fs (by omega) h
        · exact absurd h (by decide)
    · intro vs hvs
      match vs with
      | [] => intro hmem; exact absurd hmem (by decide)
      | [v] =>
        have h0 : sizeOf ([v] : List Json) = 1 + sizeOf v + sizeOf ([] : List Json) :=
          List.cons.sizeOf_spec v []
        have h1 : sizeOf ([] : List Json) = 1 := rfl
        rw [show joinCommaValues [v] = toJsonCompact v from rfl]
        exact (ih (n - 1) (by omega)).1 v (by omega)
      | v :: v2 :: rest =>
        intro hmem
        rw [show joinCommaValues (v :: v2 :: rest)
            = toJsonCompact v ++ "," ++ joinCommaValues (v2 :: rest) from rfl,
          String.data_append, String.data_append] at hmem
        simp only [List.mem_append] at hmem
        have h0 : sizeOf (v :: v2 :: rest) = 1 + sizeOf v + sizeOf (v2 :: rest) :=
          List.cons.sizeOf_spec v (v2 :: rest)
        have hv : 0 < sizeOf v := json_sizeOf_pos v
        have hr : 0 < sizeOf (v2 :: rest) := by
          have := List.cons.sizeOf_spec v2 rest
          omega
        rcases hmem with (h | h) | h
        · exact (ih (n - 1) (by omega)).1 v (by omega) h
        · exact absurd h (by decide)
        · exact (ih (n - 1) (by omega)).2.1 (v2 :: rest) (by omega) h
    · intro fs hfs
      match fs with
      | [] => intro hmem; exact absurd hmem (by decide)
      | [(k, v)] =>
        intro hmem
        rw [show joinCommaFields [(k, v)] = quoteString k ++ ":" ++ toJsonCompact v from rfl,
          String.data_append, String.data_append] at hmem
        simp only [List.mem_append] at hmem
        have h0 : sizeOf ([(k, v)] : List (String × Json))
            = 1 + sizeOf (k, v) + sizeOf ([] : List (String × Json)) :=
          List.cons.sizeOf_spec (k, v) []
        have h1 : sizeOf ([] : List (String × Json)) = 1 := rfl
        have h2 : sizeOf (k, v) = 1 + sizeOf k + sizeOf v := rfl
        rcases hmem with (h | h) | h
        · exact quoteString_no_nl k h
        · exact absurd h (by decide)
        · exact (ih (n - 1) (by omega)).1 v (by omega) h
      | (k, v) :: f2 :: rest =>
        intro hmem
        rw [show joinCommaFields ((k, v) :: f2 :: rest)
            = quoteString k ++ ":" ++ toJsonCompact v ++ ","
                ++ joinCommaFields (f2 :: rest) from rfl] at hmem
        simp only [String.data_append, List.mem_append] at hmem
        have h0 : sizeOf ((k, v) :: f2 :: rest)
            = 1 + sizeOf (k, v) + sizeOf (f2 :: rest) :=
          List.cons.sizeOf_spec (k, v) (f2 :: rest)
        have h2 : sizeOf (k, v) = 1 + sizeOf k + sizeOf v := rfl
        have hr : 0 < sizeOf (f2 :: rest) := by
          have := List.cons.sizeOf_spec f2 rest
          omega
        have hv : 0 < sizeOf v := json_sizeOf_pos v
        rcases hmem with (((h | h) | h) | h) | h
        · exact quoteString_no_nl k h
        · exact absurd h (by decide)
        · exact (ih (n - 1) (by omega)).1 v (by omega) h
        · exact absurd h (by decide)
        · exact (ih (n - 1) (by omega)).2.2 (f2 :: rest) (by omega) h

theorem toJsonCompact_no_nl (j : Json) : ¬ '\n' ∈ (toJsonCompact j).data :=
  (json_compact_no_nl (sizeOf j)).1 j (Nat.le_refl _)

theorem string_foldl_append_shift (l : List String) :
    ∀ acc : String, l.foldl (fun r s => r ++ s) acc = acc ++ l.foldl (fun r s => r ++ s) "" := by
  induction l with
  | nil => intro acc; simp
  | cons a t ih =>
    intro acc
    simp only [List.foldl_cons]
    rw [ih (acc ++ a), ih ("" ++ a)]
    simp [String.append_assoc]

theorem string_join_cons (a : String) (l : List String) :
    String.join (a :: l) = a ++ String.join l := by
  show List.foldl (fun r s => r ++ s) ("" ++ a) l = a ++ List.foldl (fun r s => r ++ s) "" l
  rw [string_foldl_append_shift l ("" ++ a)]
  simp

/-- The sequential file writes of `generate_bulk_input` produce exactly the
concatenation of the line list. -/
theorem generate_bulk_input_content_eq_join (name : String) (values : List Json)
    (ids : List String) :
    generate_bulk_input_content name values ids = String.join (bulkLines name values ids) := by
  unfold generate_bulk_input_content bulkLines
  suffices h : ∀ (l : List (Json × String)) (acc : String),
      l.foldl (fun acc p => acc ++ metaLine name p.2 ++ toJsonCompact p.1 ++ "\n") acc
        = acc ++ String.join (l.flatMap (fun p => bulkLinesFor name p.1 p.2)) by
    have := h (values.zip ids) ""
    simpa using this
  intro l
  induction l with
  | nil => intro acc; simp [String.join]
  | cons p t ih =>
    intro acc
    simp only [List.foldl_cons, List.flatMap_cons, ih, bulkLinesFor, List.cons_append,
      string_join_cons]
    simp [String.append_assoc]

theorem bulkLines_length (name : String) (values : List Json) (ids : List String)
    (h : ids.length = values.length) :
    (bulkLines name values ids).length = 2 * values.length := by
  unfold bulkLines
  have hz : (values.zip ids).length = values.length := by
    rw [List.length_zip, h, Nat.min_self]
  suffices hflat : ∀ l : List (Json × String),
      (l.flatMap (fun p => bulkLinesFor name p.1 p.2)).length = 2 * l.length by
    rw [hflat, hz]
  intro l
  induction l with
  | nil => rfl
  | cons p t ih =>
    rw [List.flatMap_cons, List.length_append, ih,
      show (bulkLinesFor name p.1 p.2).length = 2 from rfl, List.length_cons]
    omega

theorem zip_getElem? (vs : List Json) (ids : List String) (i : Nat) (v : Json) (id : String)
    (hv : vs[i]? = some v) (hid : ids[i]? = some id) :
    (vs.zip ids)[i]? = some (v, id) := by
  induction vs generalizing ids i with
  | nil => simp at hv
  | cons a t ih =>
    cases ids with
    | nil => simp at hid
    | cons b u =>
      cases i with
      | zero =>
        simp at hv hid
        simp [hv, hid]
      | succ j =>
        simp only [List.zip_cons_cons, List.getElem?_cons_succ] at hv hid ⊢
        exact ih u j hv hid

theorem bulkLines_flatMap_getElem (name : String) (l : List (Json × String)) (i : Nat)
    (p : Json × String) (hp : l[i]? = some p) :
    (l.flatMap (fun q => bulkLinesFor name q.1 q.2))[2 * i]? = some (metaLine name p.2)
    ∧ (l.flatMap (fun q => bulkLinesFor name q.1 q.2))[2 * i + 1]?
        = some (toJsonCompact p.1 ++ "\n") := by
  induction l generalizing i with
  | nil => simp at hp
  | cons q t ih =>
    cases i with
    | zero =>
      simp at hp
      subst hp
      simp [List.flatMap_cons, bulkLinesFor]
    | succ j =>
      simp only [List.getElem?_cons_succ] at hp
      have := ih j hp
      simp only [List.flatMap_cons, bulkLinesFor, List.cons_append]
      have h2 : 2 * (j + 1) = (2 * j + 1) + 1 := by omega
      rw [h2]
      simpa using this

/-- Every metadata line holds exactly one newline (its terminator), provided
the index name and the identifier hold none. -/
theorem metaLine_newlines (name id : String)
    (hn : ¬ '\n' ∈ name.data) (hi : ¬ '\n' ∈ id.data) :
    (metaLine name id).data.count '\n' = 1
    ∧ (metaLine name id).data.getLast? = some '\n' := by
  have c1 : ("\x7b \"index\": \x7b \"_index\": \"".data).count '\n' = 0 := by decide
  have c2 : ("\", \"_type\": \"_doc\", \"_id\": \"".data).count '\n' = 0 := by decide
  have c3 : ("\" \x7d \x7d\n".data).count '\n' = 1 := by decide
  have hn0 : name.data.count '\n' = 0 := List.count_eq_zero.mpr hn
  have hi0 : id.data.count '\n' = 0 := List.count_eq_zero.mpr hi
  constructor
  · simp only [metaLine, String.data_append, List.count_append, c1, c2, c3, hn0, hi0]
  · simp only [metaLine, String.data_append, List.getLast?_append]
    rfl

/-- Every document line holds exactly one newline (its terminator). -/
theorem docLine_newlines (v : Json) :
    (toJsonCompact v ++ "\n").data.count '\n' = 1
    ∧ (toJsonCompact v ++ "\n").data.getLast? = some '\n' := by
  have h0 : (toJsonCompact v).data.count '\n' = 0 :=
    List.count_eq_zero.mpr (toJsonCompact_no_nl v)
  constructor
  · rw [String.data_append, List.count_append, h0]
    rfl
  · rw [String.data_append, List.getLast?_append]
    rfl

/-- C3 (counterexample): the metadata line the code writes is not of the form
the claim states — it also carries a `"_type": "_doc"` member.  At index name
`"starwars"` and identifier `"id-0"`, line 0 of the payload is the code's
metadata line, which differs from the claimed form and contains `_type`. -/
theorem bulk_metadata_line_counterexample :
    (bulkLines "starwars" [Json.obj []] ["id-0"])[0]? = some (metaLine "starwars" "id-0")
    ∧ metaLine "starwars" "id-0" ≠ specMetaLine "starwars" "id-0"
    ∧ ("_type".data <:+: (metaLine "starwars" "id-0").data)
    ∧ ¬ ("_type".data <:+: (specMetaLine "starwars" "id-0").data) := by
  refine ⟨rfl, by decide, by decide, by decide⟩

/-- C3 (amended): for a corpus of N parsed records (identifiers drawn per
record supplied as `ids`), the payload is the concatenation of its 2N lines,
each line is terminated by exactly one newline, and for every `i < N` line
`2i` is the metadata line
`{ "index": { "_index": <name>, "_type": "_doc", "_id": <id i> } }` while
line `2i+1` is the JSON encoding of record `i`'s fields — so records appear
in corpus order. -/
theorem generate_bulk_input_payload_shape (name : String) (values : List Json)
    (ids : List String)
    (hlen : ids.length = values.length)
    (hname : ¬ '\n' ∈ name.data) (hids : ∀ id ∈ ids, ¬ '\n' ∈ id.data) :
    generate_bulk_input_content name values ids = String.join (bulkLines name values ids)
    ∧ (bulkLines name values ids).length = 2 * values.length
    ∧ (∀ line ∈ bulkLines name values ids,
        line.data.count '\n' = 1 ∧ line.data.getLast? = some '\n')
    ∧ (∀ i v id, values[i]? = some v → ids[i]? = some id →
        (bulkLines name values ids)[2 * i]? = some (metaLine name id)
        ∧ (bulkLines name values ids)[2 * i + 1]? = some (toJsonCompact v ++ "\n")) := by
  refine ⟨generate_bulk_input_content_eq_join name values ids,
    bulkLines_length name values ids hlen, ?_, ?_⟩
  · intro line hline
    unfold bulkLines at hline
    rw [List.mem_flatMap] at hline
    obtain ⟨p, hp, hlp⟩ := hline
    obtain ⟨pv, pid⟩ := p
    simp only [bulkLinesFor, List.mem_cons, List.not_mem_nil, or_false] at hlp
    rcases hlp with h | h
    · subst h
      exact metaLine_newlines name pid hname (hids pid (List.of_mem_zip hp).2)
    · subst h
      exact docLine_newlines pv
  · intro i v id hv hid
    exact bulkLines_flatMap_getElem name (values.zip ids) i (v, id)
      (zip_getElem? values ids i v id hv hid)

/-- Witness for C3's amended theorem at a concrete one-record payload. -/
theorem generate_bulk_input_payload_shape_witness :
    generate_bulk_input_content "starwars" [Json.obj []] ["id-0"]
      = String.join (bulkLines "starwars" [Json.obj []] ["id-0"]) :=
  (generate_bulk_input_payload_shape "starwars" [Json.obj []] ["id-0"]
    rfl (by decide) (by decide)).1

/-! ## The local phase of `import_bulk_input`

`bulk.json` is read with `BufRead::lines` (which splits at `'\n'`, strips a
final `'\r'` per line, and yields nothing for an empty file); each line gets
its newline back and the chunk list becomes the streamed request body. -/

def consHead (c : Char) : List (List Char) → List (List Char)
  | [] => [[c]]
  | h :: t => (c :: h) :: t

/-- Split at newlines, `BufRead::lines`-style (no line yielded for empty
input, a trailing newline yields no extra empty line). -/
def rustLinesList : List Char → List (List Char)
  | [] => []
  | '\n' :: rest => [] :: rustLinesList rest
  | c :: rest => consHead c (rustLinesList rest)

/-- `BufRead::lines` strips one trailing carriage return per line. -/
def stripCr (l : List Char) : List Char :=
  if l.getLast? = some '\r' then l.dropLast else l

def rustLines (s : String) : List String :=
  (rustLinesList s.data).map (fun l => ⟨stripCr l⟩)

/-- The chunk list for the streamed request body:
`buf.lines().map(|l| l.map(|mut z| { z.push('\n'); z }))`. -/
def import_bulk_local (payload : String) : List String :=
  (rustLines payload).map (fun z => z ++ "\n")

/-- `import_bulk_input` with its effects explicit: the chunked body that is
streamed, and the handling of the backend's response. -/
def import_bulk_input_run (name : String) (payload : String) (resp : HttpResponse) :
    List String × (Except String Unit × List String) :=
  (import_bulk_local payload, import_bulk_outcome name resp)

/-- C8: encoding an empty corpus yields an empty bulk payload (no lines), and
bulk-loading that empty payload raises no local error before the HTTP
exchange — the streamed body is the empty chunk list and the run's outcome is
exactly the response handling. -/
theorem empty_corpus_empty_payload :
    (∀ (name : String) (ids : List String), generate_bulk_input_content name [] ids = "")
    ∧ (∀ (name : String) (ids : List String), bulkLines name [] ids = [])
    ∧ import_bulk_local "" = []
    ∧ ∀ (name : String) (resp : HttpResponse),
        import_bulk_input_run name "" resp = ([], import_bulk_outcome name resp) :=
  ⟨fun _ _ => rfl, fun _ _ => rfl, rfl, fun _ _ => rfl⟩

/-! ## Query construction (`build_query`) -/

/-- `build_query`: the `json!` document, objects built by successive
`BTreeMap` inserts in source order. -/
def build_query (query : String) : Json :=
  mkObj [("query", mkObj [("multi_match",
    mkObj [("query", Json.str query),
      ("fields", Json.arr [Json.str "name^10", Json.str "description"])])])]

/-- C7: `build_query "Yoda"` yields exactly the JSON document
`{"query":{"multi_match":{"query":"Yoda","fields":["name^10","description"]}}}`
(as a `serde_json` value, whose `BTreeMap` object representation is
key-order-insensitive): the claimed document text parses to precisely the
constructed value, which weights `name` ten times (`"name^10"`) against
`description`. -/
theorem build_query_yoda :
    build_query "Yoda"
      = Json.obj [("query", Json.obj [("multi_match", Json.obj
          [("fields", Json.arr [Json.str "name^10", Json.str "description"]),
            ("query", Json.str "Yoda")])])]
    ∧ parseJsonString
        "\x7b\"query\":\x7b\"multi_match\":\x7b\"query\":\"Yoda\",\"fields\":[\"name^10\",\"description\"]\x7d\x7d\x7d"
        = some (build_query "Yoda") := by
  constructor
  · rfl
  · rfl

/-! ## The orchestrated `index` run and the local artifacts -/

/-- The two local artifacts a run may write. -/
structure FileSystem where
  dataset : Option String
  bulk : Option String
deriving DecidableEq, Repr

/-- `generate_dataset` with its effects explicit: the fetch result is an
input; a fetch error propagates (`?`) before `File::create("dataset.json")`
runs, and a successful fetch extracts the records and writes the
pretty-printed corpus artifact. -/
def generate_dataset_run (fetch : Except String (List (List (List String))))
    (fs : FileSystem) : Except String Unit × FileSystem :=
  match fetch with
  | Except.error e => (Except.error e, fs)
  | Except.ok rows =>
    (Except.ok (),
      { fs with dataset := some (generate_dataset_file (generate_dataset_records rows)) })

/-- `generate_bulk_input` with its effects explicit:
`File::create("bulk.json")` first truncates the bulk artifact, then
`dataset.json` is read and parsed; on success the payload is written (`ids`
supplies the UUIDs drawn per record).  The source's `expect` on a non-array
dataset is a panic; it is modelled as an aborting error, a path no claim
exercises. -/
def generate_bulk_input_run (name : String) (ids : List String) (fs : FileSystem) :
    Except String Unit × FileSystem :=
  let fs1 := { fs with bulk := some "" }
  match fs.dataset with
  | none => (Except.error "no dataset file", fs1)
  | some contents =>
    match parseJsonString contents with
    | some (Json.arr values) =>
      (Except.ok (), { fs1 with bulk := some (generate_bulk_input_content name values ids) })
    | _ => (Except.error "dataset should be a JSON array", fs1)

/-- The `index` subcommand: create-index, then dataset generation, then bulk
encoding, then bulk import, aborting at the first failing stage. -/
def index_run (createResult : Except String Unit)
    (fetch : Except String (List (List (List String))))
    (name : String) (ids : List String) (importResp : HttpResponse)
    (fs : FileSystem) : Except String Unit × FileSystem :=
  match createResult with
  | Except.error e => (Except.error e, fs)
  | Except.ok _ =>
    match generate_dataset_run fetch fs with
    | (Except.error e, fs1) => (Except.error e, fs1)
    | (Except.ok _, fs1) =>
      match generate_bulk_input_run name ids fs1 with
      | (Except.error e, fs2) => (Except.error e, fs2)
      | (Except.ok _, fs2) => ((import_bulk_outcome name importResp).1, fs2)

/-- C9: if the source-page fetch fails, `generate_dataset` aborts with that
error before any artifact is created, and the whole `index` run aborts with
the corpus file and the bulk-payload file untouched. -/
theorem fetch_failure_leaves_artifacts_untouched (e : String) (name : String)
    (ids : List String) (resp : HttpResponse) (fs : FileSystem) :
    generate_dataset_run (Except.error e) fs = (Except.error e, fs)
    ∧ index_run (Except.ok ()) (Except.error e) name ids resp fs = (Except.error e, fs) :=
  ⟨rfl, rfl⟩

/-! ## The `search` subcommand front-end -/

/-- Outcome of a CLI invocation: a Rust panic (`expect`) or a completed run. -/
inductive CliResult where
  | panicked (msg : String)
  | completed (res : Except String Json)
deriving Repr

/-- The `search` subcommand: `matches.value_of("query")` is the optional CLI
argument; `.expect("Query parameter")` panics when it is absent, otherwise the
query runs (`searchResult` abstracts `search_query`'s exchange). -/
def search_run (queryArg : Option String) (searchResult : String → Except String Json) :
    CliResult :=
  match queryArg with
  | none => CliResult.panicked "Query parameter"
  | some q => CliResult.completed (searchResult q)

/-- C10: invoking `search` without a query argument aborts with a panic
carrying `expect`'s message — not an error value — and with a query supplied
the panic branch is never taken. -/
theorem search_missing_query_panics :
    (∀ f : String → Except String Json,
        search_run none f = CliResult.panicked "Query parameter")
    ∧ ∀ (q : String) (f : String → Except String Json),
        search_run (some q) f = CliResult.completed (f q) :=
  ⟨fun _ => rfl, fun _ _ => rfl⟩
